import Mathlib

/-!
# Verification of the chat-room message synchronization core

Shallow embedding of the client-side message synchronization engine of the
`ktb-BootcampChat` repository: the `useChatRoom` hook (message admission,
history-batch processing, read receipts, cleanup) and the
`useReactionHandling` hook (optimistic reactions with rollback, server
reconciliation, single-message update).

JavaScript objects are modelled as Lean structures; a field that may be
`undefined` in JS is an `Option`; JS `Set`/`Map` bookkeeping is modelled with
lists (only membership and first-insertion order are ever used).  React
`setX(updater)` functional updates are applied sequentially, which matches the
single-threaded cooperative scheduling of the source.
-/

namespace BootcampChat

/-- A `readers` entry.  The source checks both `r.userId` and `r._id`
(`r.userId === userId || r._id === userId`); entries appended locally carry
only `userId` and `readAt`. -/
structure Reader where
  userId : Option String
  rid : Option String := none
  readAt : Option Nat := none
deriving DecidableEq, Repr

/-- The reactions object of a message: a JS object mapping reaction symbol to
an array of user ids, modelled as an association list in key-insertion order
(object spread `{...reactions, [reaction]: users}` updates a present key in
place and appends an absent key at the end). -/
abbrev Reactions := List (String × List String)

/-- A chat message as handled by the hooks.  `_id` is `id`, `type` is
`mtype`; timestamps are abstracted to `Nat` instants (`new Date(ts || 0)`
of the source becomes `timestamp.getD 0`). -/
structure Message where
  id : Option String
  timestamp : Option Nat
  content : Option String := none
  senderId : Option String := none
  mtype : Option String := none
  reactions : Reactions := []
  readers : List Reader := []
deriving DecidableEq, Repr

/-- The `{}` object used as rollback fallback (`messages.find(...) || {}`). -/
def emptyMessage : Message := { id := none, timestamp := none }

/-- JS truthiness of an `_id` value: `undefined` and `""` are falsy
(`if (!msg._id) ...`). Returns the id when it is truthy. -/
def truthyId : Option String → Option String
  | none => none
  | some i => if i = "" then none else some i

/-- Sort key of the comparator
`(a, b) => new Date(a.timestamp || 0) - new Date(b.timestamp || 0)`. -/
def tsKey (m : Message) : Nat := m.timestamp.getD 0

/-- Insert `m` after every element whose key is `≤ tsKey m`.  Folding this
over a list reproduces the (stable, ES2019) `Array.prototype.sort` with the
numeric timestamp comparator: ascending by key, ties in original order. -/
def insertByTs (acc : List Message) (m : Message) : List Message :=
  match acc with
  | [] => [m]
  | x :: xs => if tsKey x ≤ tsKey m then x :: insertByTs xs m else m :: x :: xs

/-- The stable sort `allMessages.sort((a, b) => ...)` of `processMessages`. -/
def sortByTs (l : List Message) : List Message := l.foldl insertByTs []

/-- One `map.set(m._id, m)` step on a JS `Map` held as a list of values in
key-insertion order: a present key keeps its position and takes the new
value, an absent key is appended. -/
def mapSet (acc : List Message) (m : Message) : List Message :=
  if acc.any (fun x => decide (x.id = m.id)) then
    acc.map (fun x => if x.id = m.id then m else x)
  else acc ++ [m]

/-- The de-duplication pass of `processMessages`:
`const map = new Map(); allMessages.forEach(m => map.set(m._id, m));
Array.from(map.values())` — keys in first-occurrence order, value of each key
is the last write. -/
def dedupById (l : List Message) : List Message := l.foldl mapSet []

/-- The admission filter of `processMessages`: drop candidates without a
truthy `_id` or whose id is already in `processedMessageIds`, recording each
accepted id in the set as it goes. Returns the accepted candidates in order
together with the grown seen-id set. -/
def admitFilter (seen : List String) : List Message → List Message × List String
  | [] => ([], seen)
  | msg :: rest =>
    match truthyId msg.id with
    | none => admitFilter seen rest
    | some i =>
      if i ∈ seen then admitFilter seen rest
      else
        let r := admitFilter (i :: seen) rest
        (msg :: r.1, r.2)

/-- The state owned by `useChatRoom` that the verified operations read or
mutate: React state plus the mutable refs. -/
structure ChatState where
  messages : List Message
  seen : List String
  previousSeen : List String
  hasMoreMessages : Bool
  initialLoadCompleted : Bool
  messageProcessing : Bool
  loading : Bool
  loadingMessages : Bool
  error : Option String
  mounted : Bool
  roomId : Option String
  cleanupInProgress : Bool
  listenersAttached : Bool
  loadMoreTimeoutPending : Bool
  userRooms : List (String × String)
  connected : Bool
deriving DecidableEq, Repr

/-- State at room entry: empty store, empty seen-id set, `error` is the
`useState("")` initial value, `loading` true, `hasMoreMessages` true. -/
def initialState : ChatState where
  messages := []
  seen := []
  previousSeen := []
  hasMoreMessages := true
  initialLoadCompleted := false
  messageProcessing := false
  loading := true
  loadingMessages := false
  error := some ""
  mounted := true
  roomId := some "room"
  cleanupInProgress := false
  listenersAttached := true
  loadMoreTimeoutPending := false
  userRooms := []
  connected := true

/-- Payload of a `previousMessages` / `previousMessagesLoaded` event.  The
`messages` field may be absent (destructuring default `[]`), an array, or a
non-array value. -/
inductive MsgField where
  | arr (l : List Message)
  | notArr
deriving DecidableEq

/-- An inbound history-batch payload: either not an object (`null` or a
primitive), or an object with an optional `messages` field and `hasMore`. -/
inductive Payload where
  | notObject
  | obj (messages : Option MsgField) (hasMore : Bool)
deriving DecidableEq

/-- `processMessages(loadedMessages, hasMore, isInitialLoad)`.  Throws
(`Except.error`) when `loadedMessages` is not an array; otherwise filters by
the seen-id set, merges with the current store, re-sorts by timestamp and
de-duplicates by `_id`, then records `hasMore` and the initial-load latch. -/
def processMessagesCore (st : ChatState) (loaded : MsgField)
    (hasMore isInitialLoad : Bool) : Except String ChatState :=
  match loaded with
  | .notArr => .error "Invalid messages format"
  | .arr loadedMessages =>
    let r := admitFilter st.seen loadedMessages
    .ok { st with
      messages := dedupById (sortByTs (st.messages ++ r.1))
      seen := r.2
      hasMoreMessages := hasMore
      initialLoadCompleted := st.initialLoadCompleted || isInitialLoad }

/-- The socket `message` handler: guard on liveness and the
message-processing flag, drop a falsy payload or a falsy `_id`, drop an
already-seen id, otherwise record the id and append the message unless an
entry with the same `_id` is already in the store. -/
def onLiveMessage (st : ChatState) (mo : Option Message) : ChatState :=
  if !st.mounted || st.messageProcessing then st
  else
    match mo with
    | none => st
    | some m =>
      match truthyId m.id with
      | none => st
      | some i =>
        if i ∈ st.seen then st
        else
          { st with
            seen := i :: st.seen
            messages :=
              if st.messages.any (fun x => decide (x.id = m.id)) then st.messages
              else st.messages ++ [m] }

/-- An admission event: a single live `message` delivery or a history batch
fed through `processMessages`. -/
inductive ChatOp where
  | live (m : Message)
  | batch (l : List Message) (hasMore : Bool) (isInitialLoad : Bool)

/-- One admission step. A batch is an array, so `processMessages` cannot
throw; the error branch is unreachable. -/
def stepOp (st : ChatState) : ChatOp → ChatState
  | .live m => onLiveMessage st (some m)
  | .batch l hm il =>
    match processMessagesCore st (.arr l) hm il with
    | .ok st' => st'
    | .error _ => st

/-- A history of interleaved admissions applied from the room-entry state. -/
def runOps (ops : List ChatOp) : ChatState := ops.foldl stepOp initialState

/-- The store is ascending by timestamp. -/
def SortedByTs (l : List Message) : Prop :=
  l.Pairwise (fun a b => tsKey a ≤ tsKey b)

instance (l : List Message) : Decidable (SortedByTs l) :=
  inferInstanceAs (Decidable (l.Pairwise (fun a b => tsKey a ≤ tsKey b)))

/-- Invariant maintained by admission: store ids are pairwise distinct and
every stored message's id has been recorded in the seen-id set. -/
def StoreInv (st : ChatState) : Prop :=
  (st.messages.map Message.id).Nodup ∧
    ∀ m ∈ st.messages, ∃ i, m.id = some i ∧ i ∈ st.seen

/-- The error message set by `cleanup` on the `"DISCONNECT"` branch. -/
def connectionLostMsg : String := "채팅 연결이 끊어졌습니다. 재연결을 시도합니다."

/-- JS falsiness of `roomId` (`!roomId`): absent or the empty string. -/
def strFalsy : Option String → Bool
  | none => true
  | some s => decide (s = "")

/-- `cleanup(reason)`: guarded by liveness, `roomId` and the re-entrancy
flag; detaches listeners unless `reason !== "RECONNECT"` fails, cancels the
pending load-more timer, always clears `processedMessageIds`,
`previousMessagesRef` and the message-processing flag; then branches on
`reason === "MANUAL"` (full reset) and `reason === "DISCONNECT"`
(connection-lost status).  Note the branch comparisons use the upper-case
strings exactly as in the source. -/
def cleanup (st : ChatState) (reason : String) : ChatState :=
  if !st.mounted || strFalsy st.roomId then st
  else if st.cleanupInProgress then st
  else
    let st1 : ChatState :=
      { st with
        listenersAttached :=
          if reason ≠ "RECONNECT" then false else st.listenersAttached
        loadMoreTimeoutPending := false
        seen := []
        previousSeen := []
        messageProcessing := false }
    if reason = "MANUAL" ∧ st1.mounted = true then
      { st1 with
        error := none
        loading := false
        loadingMessages := false
        messages := []
        userRooms := [] }
    else if reason = "DISCONNECT" ∧ st1.mounted = true then
      { st1 with error := some connectionLostMsg }
    else st1

/-- The error message set when history-batch processing fails. -/
def processErrorMsg : String := "메시지 처리 중 오류가 발생했습니다."

/-- The `previousMessages` / `previousMessagesLoaded` handler: guard on
liveness and the processing flag; throw on a non-object payload; destructure
`messages` with default `[]`; run `processMessages`; on any caught error set
the user-visible status, stop the loading spinner and set
`hasMoreMessages := false`. -/
def handlePreviousMessages (st : ChatState) (payload : Payload) : ChatState :=
  if !st.mounted || st.messageProcessing then st
  else
    match payload with
    | .notObject =>
      { st with
        loadingMessages := false
        error := some processErrorMsg
        hasMoreMessages := false }
    | .obj mf hm =>
      match processMessagesCore st (mf.getD (.arr [])) hm st.messages.isEmpty with
      | .ok st' => { st' with loadingMessages := false }
      | .error _ =>
        { st with
          loadingMessages := false
          error := some processErrorMsg
          hasMoreMessages := false }

/-- `timestamp || new Date()`: a missing or zero (falsy) timestamp falls back
to the current instant. -/
def tsOrNow (ts : Option Nat) (now : Nat) : Nat :=
  match ts with
  | none => now
  | some t => if t = 0 then now else t

/-- `messageIds.includes(msg._id)` — raw value comparison. -/
def idIncluded (messageIds : List String) : Option String → Bool
  | none => false
  | some i => messageIds.contains i

/-- Whether `readers` already has an entry for `userId`
(`r.userId === userId || r._id === userId`). -/
def hasReaderFor (userId : String) (readers : List Reader) : Bool :=
  readers.any (fun r => decide (r.userId = some userId) || decide (r.rid = some userId))

/-- The per-message body of the `messagesRead` handler. -/
def messagesReadMsg (userId : String) (messageIds : List String)
    (ts : Option Nat) (now : Nat) (msg : Message) : Message :=
  if !(idIncluded messageIds msg.id) then msg
  else if hasReaderFor userId msg.readers then msg
  else
    { msg with
      readers := msg.readers ++
        [{ userId := some userId, rid := none, readAt := some (tsOrNow ts now) }] }

/-- The socket `messagesRead` handler: map the per-message update over the
store. -/
def onMessagesRead (st : ChatState) (userId : String) (messageIds : List String)
    (ts : Option Nat) (now : Nat) : ChatState :=
  if !st.mounted then st
  else { st with messages := st.messages.map (messagesReadMsg userId messageIds ts now) }

/-- Number of `readers` entries matching user `u`. -/
def countReadersFor (u : String) (readers : List Reader) : Nat :=
  readers.countP (fun r => decide (r.userId = some u) || decide (r.rid = some u))

/-! ## `useReactionHandling` -/

/-- `updateSingleMessage(messageId, updater)` of `useReactionHandling`:
locate the first message with `_id === messageId` (`findIndex`); if absent,
or if the updater returns the located message itself
(`updatedMessage === oldMessage`), return the original array `prev`
(modelled as `none` — no new collection identity); otherwise return a copy
with only the located index replaced (`some`). -/
def updateSingleMessage (messageId : String) (updater : Message → Message) :
    List Message → Option (List Message)
  | [] => none
  | m :: rest =>
    if m.id = some messageId then
      (if updater m = m then none else some (updater m :: rest))
    else (updateSingleMessage messageId updater rest).map (fun r => m :: r)

/-- The store after a `updateSingleMessage` call: either the untouched
original array or the updated copy. -/
def updateSingleMessageRun (messageId : String) (updater : Message → Message)
    (prev : List Message) : List Message :=
  (updateSingleMessage messageId updater prev).getD prev

/-- `currentReactions[reaction] || []`. -/
def getReactionUsers (reactions : Reactions) (reaction : String) : List String :=
  ((reactions.find? (fun p => decide (p.1 = reaction))).map Prod.snd).getD []

/-- `{...currentReactions, [reaction]: users}`. -/
def setReactionUsers (reactions : Reactions) (reaction : String)
    (users : List String) : Reactions :=
  if reactions.any (fun p => decide (p.1 = reaction)) then
    reactions.map (fun p => if p.1 = reaction then (reaction, users) else p)
  else reactions ++ [(reaction, users)]

/-- The optimistic updater of `handleReactionAdd`: no-op when the current
user already reacted with this symbol, otherwise append the user id. -/
def addReactionUpdater (uid reaction : String) (msg : Message) : Message :=
  let users := getReactionUsers msg.reactions reaction
  if uid ∈ users then msg
  else { msg with reactions := setReactionUsers msg.reactions reaction (users ++ [uid]) }

/-- The rollback updater of the catch blocks:
`() => messages.find((m) => m._id === messageId) || {}`, where `messages` is
the pre-call store snapshot. -/
def rollbackUpdater (snapshot : List Message) (messageId : String) :
    Message → Message :=
  fun _ => (snapshot.find? (fun m => decide (m.id = some messageId))).getD emptyMessage

/-- Result of a reaction call: the store afterwards, and whether the catch
block ran (`Toast.error`, a user-visible non-fatal report). -/
structure ReactionCallResult where
  messages : List Message
  errorReported : Bool
deriving DecidableEq, Repr

/-- `handleReactionAdd(messageId, reaction)`: throw if the transport is not
connected; otherwise apply the optimistic update and emit.  Any failure
(the not-connected throw, or the emit throwing — `emitFails`) lands in the catch
block, which reports the error and rolls the message back to the pre-call
snapshot. -/
def handleReactionAdd (connected emitFails : Bool) (uid messageId reaction : String)
    (messages : List Message) : ReactionCallResult :=
  if !connected then
    { messages := updateSingleMessageRun messageId (rollbackUpdater messages messageId) messages
      errorReported := true }
  else
    let afterOptimistic :=
      updateSingleMessageRun messageId (addReactionUpdater uid reaction) messages
    if emitFails then
      { messages :=
          updateSingleMessageRun messageId (rollbackUpdater messages messageId) afterOptimistic
        errorReported := true }
    else
      { messages := afterOptimistic, errorReported := false }

/-- `handleReactionUpdate({messageId, reactions})`: replace the `reactions`
map of the target message wholesale. -/
def handleReactionUpdate (messageId : String) (reactions : Reactions)
    (messages : List Message) : List Message :=
  updateSingleMessageRun messageId (fun msg => { msg with reactions := reactions }) messages

/-! ## Lemmas about the stable timestamp sort -/

lemma insertByTs_perm (m : Message) (acc : List Message) :
    List.Perm (insertByTs acc m) (m :: acc) := by
  induction acc with
  | nil => simp [insertByTs]
  | cons x xs ih =>
    by_cases h : tsKey x ≤ tsKey m
    · simp only [insertByTs, if_pos h]
      exact (ih.cons x).trans (List.Perm.swap m x xs)
    · simp [insertByTs, if_neg h]

lemma foldl_insertByTs_perm (l : List Message) :
    ∀ acc : List Message, List.Perm (l.foldl insertByTs acc) (acc ++ l) := by
  induction l with
  | nil => intro acc; simp
  | cons m l ih =>
    intro acc
    have h1 := ih (insertByTs acc m)
    have h2 : List.Perm (insertByTs acc m ++ l) ((m :: acc) ++ l) :=
      (insertByTs_perm m acc).append_right l
    have h3 : List.Perm ((m :: acc) ++ l) (acc ++ m :: l) :=
      (List.perm_middle).symm
    exact (h1.trans h2).trans h3

lemma sortByTs_perm (l : List Message) : List.Perm (sortByTs l) l := by
  simpa using foldl_insertByTs_perm l []

lemma insertByTs_sorted {acc : List Message} (m : Message)
    (h : SortedByTs acc) : SortedByTs (insertByTs acc m) := by
  induction acc with
  | nil => simp [insertByTs, SortedByTs]
  | cons x xs ih =>
    rw [SortedByTs, List.pairwise_cons] at h
    obtain ⟨hx, hxs⟩ := h
    by_cases hle : tsKey x ≤ tsKey m
    · rw [SortedByTs]
      simp only [insertByTs, if_pos hle]
      rw [List.pairwise_cons]
      refine ⟨?_, ih hxs⟩
      intro b hb
      rw [(insertByTs_perm m xs).mem_iff, List.mem_cons] at hb
      rcases hb with rfl | hb
      · exact hle
      · exact hx b hb
    · rw [SortedByTs]
      simp only [insertByTs, if_neg hle]
      rw [List.pairwise_cons]
      constructor
      · intro b hb
        rw [List.mem_cons] at hb
        have hmx : tsKey m ≤ tsKey x := Nat.le_of_lt (Nat.lt_of_not_le hle)
        rcases hb with rfl | hb
        · exact hmx
        · exact Nat.le_trans hmx (hx b hb)
      · rw [List.pairwise_cons]; exact ⟨hx, hxs⟩

lemma foldl_insertByTs_sorted (l : List Message) :
    ∀ acc : List Message, SortedByTs acc → SortedByTs (l.foldl insertByTs acc) := by
  induction l with
  | nil => intro acc h; simpa using h
  | cons m l ih =>
    intro acc h
    exact ih (insertByTs acc m) (insertByTs_sorted m h)

lemma sortByTs_sorted (l : List Message) : SortedByTs (sortByTs l) :=
  foldl_insertByTs_sorted l [] (by simp [SortedByTs])

/-! ## Lemmas about the id-keyed de-duplication pass -/

lemma foldl_mapSet_eq_append : ∀ (l acc : List Message),
    ((acc ++ l).map Message.id).Nodup → l.foldl mapSet acc = acc ++ l := by
  intro l
  induction l with
  | nil => intro acc _; simp
  | cons m rest ih =>
    intro acc h
    have hnot : acc.any (fun x => decide (x.id = m.id)) = false := by
      rw [List.map_append, List.nodup_append] at h
      obtain ⟨_, _, hdisj⟩ := h
      rw [List.any_eq_false]
      intro x hx
      simp only [decide_eq_true_eq]
      intro hxm
      exact hdisj (a := m.id) (hxm ▸ List.mem_map_of_mem Message.id hx)
        (List.mem_map_of_mem Message.id (List.mem_cons_self m rest))
    have hset : mapSet acc m = acc ++ [m] := by
      rw [mapSet, hnot]; rfl
    have hassoc : (acc ++ [m]) ++ rest = acc ++ m :: rest := by
      rw [List.append_assoc]; rfl
    rw [List.foldl_cons, hset, ih (acc ++ [m]) (by rw [hassoc]; exact h), hassoc]

lemma dedupById_eq_self {l : List Message}
    (h : (l.map Message.id).Nodup) : dedupById l = l := by
  simpa [dedupById] using foldl_mapSet_eq_append l [] (by simpa using h)

/-! ## Lemmas about the admission filter -/

lemma truthyId_eq_some {o : Option String} {i : String}
    (h : truthyId o = some i) : o = some i := by
  cases o with
  | none => simp [truthyId] at h
  | some j =>
    by_cases hj : j = ""
    · simp [truthyId, hj] at h
    · simpa [truthyId, hj] using h

/-- Accepted candidates have pairwise-distinct ids; each accepted candidate's
id was not yet seen and is recorded in the returned set; the returned set
contains the initial one. -/
lemma admitFilter_spec (l : List Message) : ∀ seen : List String,
    (((admitFilter seen l).1.map Message.id).Nodup ∧
      ∀ m ∈ (admitFilter seen l).1,
        ∃ i, m.id = some i ∧ i ∈ (admitFilter seen l).2 ∧ i ∉ seen) ∧
      ∀ j ∈ seen, j ∈ (admitFilter seen l).2 := by
  induction l with
  | nil =>
    intro seen
    refine ⟨⟨by simp [admitFilter], by simp [admitFilter]⟩, ?_⟩
    intro j hj; simpa [admitFilter] using hj
  | cons msg rest ih =>
    intro seen
    match htruthy : truthyId msg.id with
    | none =>
      simpa only [admitFilter, htruthy] using ih seen
    | some i =>
      by_cases hi : i ∈ seen
      · simpa only [admitFilter, htruthy, if_pos hi] using ih seen
      · have ihr := ih (i :: seen)
        obtain ⟨⟨hnodup, hspec⟩, hsub⟩ := ihr
        have hgoal1 : ((admitFilter seen (msg :: rest)).1 =
            msg :: (admitFilter (i :: seen) rest).1) ∧
            (admitFilter seen (msg :: rest)).2 = (admitFilter (i :: seen) rest).2 := by
          rw [admitFilter]
          simp [htruthy, if_neg hi]
        obtain ⟨h1, h2⟩ := hgoal1
        rw [h1, h2]
        refine ⟨⟨?_, ?_⟩, ?_⟩
        · rw [List.map_cons, List.nodup_cons]
          refine ⟨?_, hnodup⟩
          intro hmem
          rw [List.mem_map] at hmem
          obtain ⟨m', hm', hid⟩ := hmem
          obtain ⟨i', hi'1, _, hi'3⟩ := hspec m' hm'
          rw [hi'1, truthyId_eq_some htruthy] at hid
          have : i' = i := by injection hid
          exact hi'3 (this ▸ List.mem_cons_self i' seen)
        · intro m hm
          rw [List.mem_cons] at hm
          rcases hm with rfl | hm
          · exact ⟨i, truthyId_eq_some htruthy,
              hsub i (List.mem_cons_self i seen), hi⟩
          · obtain ⟨i', hi'1, hi'2, hi'3⟩ := hspec m hm
            exact ⟨i', hi'1, hi'2, fun hc => hi'3 (List.mem_cons_of_mem i hc)⟩
        · intro j hj
          exact hsub j (List.mem_cons_of_mem i hj)

/-- Dropping a candidate that lacks a truthy id, or whose id is already in
the seen-id set, does not change the result of the admission filter. -/
lemma admitFilter_drop (c : Message) (l₁ : List Message) :
    ∀ (seen : List String) (l₂ : List Message),
      (truthyId c.id = none ∨ ∃ i, truthyId c.id = some i ∧ i ∈ seen) →
      admitFilter seen (l₁ ++ c :: l₂) = admitFilter seen (l₁ ++ l₂) := by
  induction l₁ with
  | nil =>
    intro seen l₂ h
    rcases h with h | ⟨i, hi, hmem⟩
    · simp [admitFilter, h]
    · simp [admitFilter, hi, if_pos hmem]
  | cons m l₁ ih =>
    intro seen l₂ h
    simp only [List.cons_append, admitFilter]
    match htruthy : truthyId m.id with
    | none => exact ih seen l₂ h
    | some i' =>
      by_cases hi' : i' ∈ seen
      · simp only [if_pos hi']
        exact ih seen l₂ h
      · simp only [if_neg hi']
        have h' : truthyId c.id = none ∨ ∃ i, truthyId c.id = some i ∧ i ∈ i' :: seen := by
          rcases h with h | ⟨i, hi, hmem⟩
          · exact Or.inl h
          · exact Or.inr ⟨i, hi, List.mem_cons_of_mem i' hmem⟩
        simp only [List.append_eq]
        rw [ih (i' :: seen) l₂ h']

/-! ## The store invariant along admission histories -/

lemma batch_messages_eq (st : ChatState) (l : List Message) (hm il : Bool) :
    stepOp st (.batch l hm il) =
      { st with
        messages := dedupById (sortByTs (st.messages ++ (admitFilter st.seen l).1))
        seen := (admitFilter st.seen l).2
        hasMoreMessages := hm
        initialLoadCompleted := st.initialLoadCompleted || il } := rfl

lemma combined_ids_nodup (st : ChatState) (l : List Message) (hInv : StoreInv st) :
    ((st.messages ++ (admitFilter st.seen l).1).map Message.id).Nodup := by
  obtain ⟨hnodup, hsub⟩ := hInv
  obtain ⟨⟨hnodup', hspec⟩, _⟩ := admitFilter_spec l st.seen
  rw [List.map_append, List.nodup_append]
  refine ⟨hnodup, hnodup', ?_⟩
  intro x hx hx'
  rw [List.mem_map] at hx hx'
  obtain ⟨m, hm, rfl⟩ := hx
  obtain ⟨m', hm', hid⟩ := hx'
  obtain ⟨i, hi1, hi2⟩ := hsub m hm
  obtain ⟨i', hi'1, _, hi'3⟩ := hspec m' hm'
  rw [hi1, hi'1] at hid
  have : i' = i := by injection hid
  exact hi'3 (this ▸ hi2)

lemma stepOp_batch_ok (st : ChatState) (l : List Message) (hm il : Bool)
    (hInv : StoreInv st) :
    SortedByTs ((stepOp st (.batch l hm il)).messages) ∧
      StoreInv (stepOp st (.batch l hm il)) := by
  have hcomb := combined_ids_nodup st l hInv
  set L := st.messages ++ (admitFilter st.seen l).1 with hL
  have hperm : List.Perm ((sortByTs L).map Message.id) (L.map Message.id) :=
    (sortByTs_perm L).map Message.id
  have hsortNodup : ((sortByTs L).map Message.id).Nodup :=
    hperm.nodup_iff.mpr hcomb
  have hded : dedupById (sortByTs L) = sortByTs L := dedupById_eq_self hsortNodup
  have hmsg : (stepOp st (.batch l hm il)).messages = sortByTs L := by
    rw [batch_messages_eq]; exact hded
  refine ⟨by rw [hmsg]; exact sortByTs_sorted L, ?_, ?_⟩
  · rw [hmsg]; exact hsortNodup
  · intro m hmem
    rw [hmsg, (sortByTs_perm L).mem_iff, hL, List.mem_append] at hmem
    have hseen : (stepOp st (.batch l hm il)).seen = (admitFilter st.seen l).2 := by
      rw [batch_messages_eq]
    rw [hseen]
    obtain ⟨⟨_, hspec⟩, hsub⟩ := admitFilter_spec l st.seen
    rcases hmem with hmem | hmem
    · obtain ⟨i, hi1, hi2⟩ := hInv.2 m hmem
      exact ⟨i, hi1, hsub i hi2⟩
    · obtain ⟨i, hi1, hi2, _⟩ := hspec m hmem
      exact ⟨i, hi1, hi2⟩

lemma storeInv_live (st : ChatState) (mo : Option Message)
    (hInv : StoreInv st) : StoreInv (onLiveMessage st mo) := by
  rw [onLiveMessage.eq_def]
  split
  · exact hInv
  · split
    · exact hInv
    · next m =>
      split
      · exact hInv
      · next i htruthy =>
        split
        · exact hInv
        · next hi =>
          split
          · next hany =>
            refine ⟨hInv.1, ?_⟩
            intro m' hm'
            obtain ⟨i', hi'1, hi'2⟩ := hInv.2 m' hm'
            exact ⟨i', hi'1, List.mem_cons_of_mem i hi'2⟩
          · next hany =>
            constructor
            · rw [List.map_append, List.nodup_append]
              refine ⟨hInv.1, by simp, ?_⟩
              intro x hx hx'
              rw [List.mem_map] at hx
              obtain ⟨m', hm', rfl⟩ := hx
              simp only [List.map_cons, List.map_nil, List.mem_singleton] at hx'
              rw [List.any_eq_true] at hany
              exact absurd ⟨m', hm', by simp [hx']⟩ hany
            · intro m' hm'
              rw [List.mem_append] at hm'
              rcases hm' with hm' | hm'
              · obtain ⟨i', hi'1, hi'2⟩ := hInv.2 m' hm'
                exact ⟨i', hi'1, List.mem_cons_of_mem i hi'2⟩
              · rw [List.mem_singleton] at hm'
                subst hm'
                exact ⟨i, truthyId_eq_some htruthy, List.mem_cons_self i st.seen⟩

lemma storeInv_initial : StoreInv initialState := by
  constructor <;> simp [initialState]

lemma storeInv_foldl (ops : List ChatOp) :
    ∀ st : ChatState, StoreInv st → StoreInv (ops.foldl stepOp st) := by
  induction ops with
  | nil => intro st h; simpa using h
  | cons op ops ih =>
    intro st h
    apply ih
    match op with
    | .live m => exact storeInv_live st (some m) h
    | .batch l hm il => exact (stepOp_batch_ok st l hm il h).2

lemma storeInv_runOps (ops : List ChatOp) : StoreInv (runOps ops) :=
  storeInv_foldl ops initialState storeInv_initial

lemma onLiveMessage_some (st : ChatState) (m : Message) :
    onLiveMessage st (some m) =
      if !st.mounted || st.messageProcessing then st
      else
        match truthyId m.id with
        | none => st
        | some i =>
          if i ∈ st.seen then st
          else
            { st with
              seen := i :: st.seen
              messages :=
                if st.messages.any (fun x => decide (x.id = m.id)) then st.messages
                else st.messages ++ [m] } := by
  rw [onLiveMessage.eq_def]

/-! ## Concrete messages used by counterexamples and witnesses -/

/-- A message with id `"a"` and timestamp `5`. -/
def mA5 : Message := { id := some "a", timestamp := some 5 }

/-- A message with id `"b"` and timestamp `2`. -/
def mB2 : Message := { id := some "b", timestamp := some 2 }

/-! ## Claim C1 -/

/-- C1 counterexample: the claim that the Message Store is sorted ascending
by timestamp after every admission, *including after admitting a single live
message*, is false.  History: a batch admits `mA5` (timestamp 5), then the
live `message` handler admits `mB2` (timestamp 2) — the handler appends
without re-sorting, leaving the store `[mA5, mB2]`, which is not sorted. -/
theorem live_admission_breaks_sort :
    ¬ SortedByTs
      ((runOps [ChatOp.batch [mA5] true false, ChatOp.live mB2]).messages) := by
  have h : (runOps [ChatOp.batch [mA5] true false, ChatOp.live mB2]).messages
      = [mA5, mB2] := by decide
  rw [h]
  intro hs
  rw [SortedByTs, List.pairwise_cons] at hs
  have h52 := hs.1 mB2 (List.mem_singleton.mpr rfl)
  simp [tsKey, mA5, mB2] at h52

/-- C1 (amended): for every history of interleaved admissions from the
room-entry state, the Message Store is sorted ascending by timestamp (ties
broken by arrival order, the sort being stable) after every *batch*
admission (`processMessages`); a single live admission merely appends the
message (or leaves the store unchanged), so sortedness is not re-established
by the live path. -/
theorem batch_admission_sorted :
    (∀ (ops : List ChatOp) (l : List Message) (hm il : Bool),
        SortedByTs ((stepOp (runOps ops) (.batch l hm il)).messages)) ∧
      ∀ (st : ChatState) (m : Message),
        (stepOp st (.live m)).messages = st.messages ∨
          (stepOp st (.live m)).messages = st.messages ++ [m] := by
  constructor
  · intro ops l hm il
    exact (stepOp_batch_ok (runOps ops) l hm il (storeInv_runOps ops)).1
  · intro st m
    show (onLiveMessage st (some m)).messages = st.messages ∨
      (onLiveMessage st (some m)).messages = st.messages ++ [m]
    rw [onLiveMessage_some]
    split
    · exact Or.inl rfl
    · split
      · exact Or.inl rfl
      · next i _ =>
        split
        · exact Or.inl rfl
        · split
          · exact Or.inl rfl
          · exact Or.inr rfl

/-! ## Claim C2 -/

/-- C2: admission is idempotent per message id.  (1) Along every history of
interleaved admissions the store's ids are pairwise distinct (each id occurs
at most once); (2) a live candidate without a (truthy) id is rejected and
the whole state is unchanged; (3) a live candidate whose id is already in
the seen-id set is rejected and the state is unchanged; (4) a batch
candidate without a (truthy) id or whose id is already in the seen-id set is
filtered out: the batch produces exactly the state it would produce without
that candidate. -/
theorem admission_at_most_once :
    (∀ ops : List ChatOp, ((runOps ops).messages.map Message.id).Nodup) ∧
      (∀ (st : ChatState) (m : Message),
          truthyId m.id = none → stepOp st (.live m) = st) ∧
      (∀ (st : ChatState) (m : Message) (i : String),
          truthyId m.id = some i → i ∈ st.seen → stepOp st (.live m) = st) ∧
      ∀ (st : ChatState) (l₁ l₂ : List Message) (c : Message) (hm il : Bool),
        (truthyId c.id = none ∨ ∃ i, truthyId c.id = some i ∧ i ∈ st.seen) →
        stepOp st (.batch (l₁ ++ c :: l₂) hm il) = stepOp st (.batch (l₁ ++ l₂) hm il) := by
  refine ⟨fun ops => (storeInv_runOps ops).1, ?_, ?_, ?_⟩
  · intro st m h
    show onLiveMessage st (some m) = st
    simp only [onLiveMessage_some, h]
    split <;> rfl
  · intro st m i h hmem
    show onLiveMessage st (some m) = st
    simp only [onLiveMessage_some, h, hmem]
    split <;> rfl
  · intro st l₁ l₂ c hm il h
    rw [batch_messages_eq, batch_messages_eq,
      admitFilter_drop c l₁ st.seen l₂ h]

/-- Witness for C2: concrete instances of each conjunct. -/
theorem admission_at_most_once_witness :
    ((runOps [ChatOp.batch [mA5] true false]).messages.map Message.id).Nodup ∧
      stepOp initialState (.live { id := none, timestamp := none }) = initialState ∧
      stepOp { initialState with seen := ["a"] } (.live mA5) =
        { initialState with seen := ["a"] } ∧
      stepOp { initialState with seen := ["a"] } (.batch ([] ++ mA5 :: []) true false) =
        stepOp { initialState with seen := ["a"] } (.batch ([] ++ []) true false) :=
  ⟨admission_at_most_once.1 [ChatOp.batch [mA5] true false],
    admission_at_most_once.2.1 _ _ (by decide),
    admission_at_most_once.2.2.1 _ _ "a" (by decide) (by decide),
    admission_at_most_once.2.2.2 _ [] [] mA5 true false
      (Or.inr ⟨"a", by decide, by decide⟩)⟩

/-! ## Lemmas about `updateSingleMessage` -/

lemma updateSingleMessage_of_not_mem (mid : String) (f : Message → Message) :
    ∀ l : List Message, (∀ m ∈ l, m.id ≠ some mid) →
      updateSingleMessage mid f l = none := by
  intro l
  induction l with
  | nil => intro _; rfl
  | cons m rest ih =>
    intro h
    have hm : ¬ m.id = some mid := h m (List.mem_cons_self m rest)
    simp only [updateSingleMessage, if_neg hm]
    rw [ih (fun m' hm' => h m' (List.mem_cons_of_mem m hm'))]
    rfl

lemma rollbackUpdater_cons_ne {m : Message} {rest : List Message} {mid : String}
    (h : ¬ m.id = some mid) :
    rollbackUpdater (m :: rest) mid = rollbackUpdater rest mid := by
  funext x
  rw [rollbackUpdater, rollbackUpdater,
    List.find?_cons_of_neg rest (by simpa using h)]

/-- Rolling back an untouched store is a no-op: the updater returns the
located message itself, so `updateSingleMessage` returns the original
reference. -/
lemma rollback_self (mid : String) :
    ∀ prev : List Message,
      updateSingleMessage mid (rollbackUpdater prev mid) prev = none := by
  intro prev
  induction prev with
  | nil => rfl
  | cons m rest ih =>
    by_cases hm : m.id = some mid
    · have hfind : rollbackUpdater (m :: rest) mid m = m := by
        rw [rollbackUpdater, List.find?_cons_of_pos rest (by simpa using hm)]
        rfl
      simp [updateSingleMessage, if_pos hm, hfind]
    · simp only [updateSingleMessage, if_neg hm, rollbackUpdater_cons_ne hm, ih]
      rfl

/-- Rolling back after an id-preserving optimistic update restores exactly
the pre-update store. -/
lemma rollback_after_update {f : Message → Message}
    (hf : ∀ x, (f x).id = x.id) (mid : String) :
    ∀ (prev l' : List Message), updateSingleMessage mid f prev = some l' →
      updateSingleMessage mid (rollbackUpdater prev mid) l' = some prev := by
  intro prev
  induction prev with
  | nil => intro l' h; simp [updateSingleMessage] at h
  | cons m rest ih =>
    intro l' h
    by_cases hm : m.id = some mid
    · simp only [updateSingleMessage, if_pos hm] at h
      by_cases hfm : f m = m
      · rw [if_pos hfm] at h; exact absurd h (by simp)
      · rw [if_neg hfm] at h
        have hl' : l' = f m :: rest := by injection h with h'; exact h'.symm
        subst hl'
        have hid : (f m).id = some mid := by rw [hf m]; exact hm
        have hfind : rollbackUpdater (m :: rest) mid (f m) = m := by
          rw [rollbackUpdater, List.find?_cons_of_pos rest (by simpa using hm)]
          rfl
        simp only [updateSingleMessage, if_pos hid, hfind]
        rw [if_neg (show ¬ m = f m from fun hc => hfm hc.symm)]
    · simp only [updateSingleMessage, if_neg hm] at h
      cases hrest : updateSingleMessage mid f rest with
      | none => rw [hrest] at h; simp at h
      | some r' =>
        rw [hrest] at h
        simp only [Option.map_some'] at h
        have hl' : m :: r' = l' := by injection h
        subst hl'
        simp only [updateSingleMessage, if_neg hm, rollbackUpdater_cons_ne hm,
          ih r' hrest]
        rfl

lemma addReactionUpdater_id (uid reaction : String) (x : Message) :
    (addReactionUpdater uid reaction x).id = x.id := by
  rw [addReactionUpdater]
  split <;> rfl

lemma updateSingleMessageRun_cons_ne {m : Message} {rest : List Message}
    {mid : String} (f : Message → Message) (h : ¬ m.id = some mid) :
    updateSingleMessageRun mid f (m :: rest) = m :: updateSingleMessageRun mid f rest := by
  rw [updateSingleMessageRun, updateSingleMessageRun]
  simp only [updateSingleMessage, if_neg h]
  cases updateSingleMessage mid f rest <;> rfl

lemma run_rollback_self (mid : String) (prev : List Message) :
    updateSingleMessageRun mid (rollbackUpdater prev mid) prev = prev := by
  rw [updateSingleMessageRun, rollback_self]
  rfl

lemma run_rollback_after {f : Message → Message} (hf : ∀ x, (f x).id = x.id)
    (mid : String) (prev : List Message) :
    updateSingleMessageRun mid (rollbackUpdater prev mid)
      (updateSingleMessageRun mid f prev) = prev := by
  unfold updateSingleMessageRun
  cases hopt : updateSingleMessage mid f prev with
  | none => rw [Option.getD_none, rollback_self, Option.getD_none]
  | some l' =>
    rw [Option.getD_some,
      rollback_after_update hf mid prev l' hopt, Option.getD_some]

/-! ## Claim C3 -/

/-- C3: a reaction `add` whose outbound path fails — the transport reports
disconnected at call time, or the emit throws — reports a user-visible
non-fatal error and leaves the store (in particular the target message's
reaction state) exactly as it was before the call: the optimistic update is
fully rolled back from the pre-call snapshot. -/
theorem reaction_add_full_rollback (connected emitFails : Bool)
    (uid mid reaction : String) (msgs : List Message)
    (h : connected = false ∨ emitFails = true) :
    (handleReactionAdd connected emitFails uid mid reaction msgs).messages = msgs ∧
      (handleReactionAdd connected emitFails uid mid reaction msgs).errorReported = true := by
  cases connected with
  | false =>
    refine ⟨?_, rfl⟩
    show updateSingleMessageRun mid (rollbackUpdater msgs mid) msgs = msgs
    exact run_rollback_self mid msgs
  | true =>
    have hemit : emitFails = true := h.resolve_left (by simp)
    subst hemit
    refine ⟨?_, rfl⟩
    show updateSingleMessageRun mid (rollbackUpdater msgs mid)
      (updateSingleMessageRun mid (addReactionUpdater uid reaction) msgs) = msgs
    exact run_rollback_after (addReactionUpdater_id uid reaction) mid msgs

/-- Witness for C3: a disconnected `add` and a failed emit on a concrete
store both leave it unchanged and report the error. -/
theorem reaction_add_full_rollback_witness :
    ((handleReactionAdd false false "u1" "a" "like" [mA5]).messages = [mA5] ∧
        (handleReactionAdd false false "u1" "a" "like" [mA5]).errorReported = true) ∧
      (handleReactionAdd true true "u1" "a" "like" [mA5]).messages = [mA5] ∧
        (handleReactionAdd true true "u1" "a" "like" [mA5]).errorReported = true :=
  ⟨reaction_add_full_rollback false false "u1" "a" "like" [mA5] (Or.inl rfl),
    reaction_add_full_rollback true true "u1" "a" "like" [mA5] (Or.inr rfl)⟩

/-! ## Claim C4 -/

/-- C4: ingesting a reaction-delta event `{messageId, reactions}` whose
`messageId` is present in the store replaces the target message's
`reactions` map wholesale with the delta's map, whatever optimistic local
reaction state the message carried before (server wins, no merge). -/
theorem reaction_update_server_wins (mid : String) (rs : Reactions) :
    ∀ (msgs : List Message) (m₀ : Message),
      msgs.find? (fun m => decide (m.id = some mid)) = some m₀ →
      ∃ m', (handleReactionUpdate mid rs msgs).find?
          (fun m => decide (m.id = some mid)) = some m' ∧ m'.reactions = rs := by
  intro msgs
  induction msgs with
  | nil => intro m₀ h; simp at h
  | cons m rest ih =>
    intro m₀ h
    by_cases hm : m.id = some mid
    · by_cases hfm : ({ m with reactions := rs } : Message) = m
      · have hrun : handleReactionUpdate mid rs (m :: rest) = m :: rest := by
          rw [handleReactionUpdate, updateSingleMessageRun]
          simp only [updateSingleMessage, if_pos hm, if_pos hfm]
          rfl
        refine ⟨m, ?_, ?_⟩
        · rw [hrun, List.find?_cons_of_pos rest (by simpa using hm)]
        · have := congrArg Message.reactions hfm
          simpa using this.symm
      · have hrun : handleReactionUpdate mid rs (m :: rest) =
            { m with reactions := rs } :: rest := by
          rw [handleReactionUpdate, updateSingleMessageRun]
          simp only [updateSingleMessage, if_pos hm, if_neg hfm]
          rfl
        refine ⟨{ m with reactions := rs }, ?_, rfl⟩
        rw [hrun, List.find?_cons_of_pos rest (by simpa using hm)]
    · have hfind : rest.find? (fun m' => decide (m'.id = some mid)) = some m₀ := by
        rw [List.find?_cons_of_neg rest (by simpa using hm)] at h
        exact h
      obtain ⟨m', hm'1, hm'2⟩ := ih m₀ hfind
      refine ⟨m', ?_, hm'2⟩
      rw [handleReactionUpdate, updateSingleMessageRun_cons_ne _ hm,
        List.find?_cons_of_neg _ (by simpa using hm)]
      exact hm'1

/-- Witness for C4: a concrete store holding an optimistic reaction state is
overwritten by the server delta. -/
theorem reaction_update_server_wins_witness :
    ∃ m', (handleReactionUpdate "a" [("like", ["u2"])]
        [{ mA5 with reactions := [("like", ["u1"]), ("wow", ["u3"])] }]).find?
        (fun m => decide (m.id = some "a")) = some m' ∧
      m'.reactions = [("like", ["u2"])] :=
  reaction_update_server_wins "a" [("like", ["u2"])]
    [{ mA5 with reactions := [("like", ["u1"]), ("wow", ["u3"])] }]
    { mA5 with reactions := [("like", ["u1"]), ("wow", ["u3"])] } (by rfl)

/-! ## Claim C5 -/

/-- C5: `updateSingleMessage` preserves the collection reference: when no
message has the target id the call is a silent no-op returning the original
array (`none` in the model, meaning `prev` itself is returned), and when the
transform returns the located message unchanged (`===` in the source,
equality of the located value here) the original array is likewise returned
with no new collection identity. -/
theorem updateOne_preserves_reference (mid : String) (f : Message → Message)
    (msgs : List Message) :
    ((∀ m ∈ msgs, m.id ≠ some mid) → updateSingleMessage mid f msgs = none) ∧
      ∀ m₀, msgs.find? (fun m => decide (m.id = some mid)) = some m₀ →
        f m₀ = m₀ → updateSingleMessage mid f msgs = none := by
  constructor
  · exact updateSingleMessage_of_not_mem mid f msgs
  · induction msgs with
    | nil => intro m₀ h; simp at h
    | cons m rest ih =>
      intro m₀ h hfix
      by_cases hm : m.id = some mid
      · rw [List.find?_cons_of_pos rest (by simpa using hm)] at h
        have hm₀ : m₀ = m := by injection h with h'; exact h'.symm
        subst hm₀
        simp only [updateSingleMessage, if_pos hm, if_pos hfix]
      · rw [List.find?_cons_of_neg rest (by simpa using hm)] at h
        simp only [updateSingleMessage, if_neg hm, ih m₀ h hfix]
        rfl

/-- Witness for C5: a concrete id miss and a concrete identity transform
both return the original reference. -/
theorem updateOne_preserves_reference_witness :
    updateSingleMessage "zzz" (fun m => m) [mA5] = none ∧
      updateSingleMessage "a" (fun m => m) [mA5] = none :=
  ⟨(updateOne_preserves_reference "zzz" (fun m => m) [mA5]).1 (by decide),
    (updateOne_preserves_reference "a" (fun m => m) [mA5]).2 mA5 (by rfl) rfl⟩

/-! ## Claim C10 -/

/-- C10: when `updateSingleMessage` finds the target id and the transform
returns a new message (`some` result), the resulting store has the same
length and order: every position other than the located index holds the very
entry it held before, and the located index holds the transformed message. -/
theorem updateOne_frame (mid : String) (f : Message → Message) :
    ∀ (msgs l' : List Message), updateSingleMessage mid f msgs = some l' →
      l'.length = msgs.length ∧
        (∀ j : Nat, j ≠ msgs.findIdx (fun m => decide (m.id = some mid)) →
          l'[j]? = msgs[j]?) ∧
        ∃ m₀, msgs[msgs.findIdx (fun m => decide (m.id = some mid))]? = some m₀ ∧
          l'[msgs.findIdx (fun m => decide (m.id = some mid))]? = some (f m₀) := by
  intro msgs
  induction msgs with
  | nil => intro l' h; simp [updateSingleMessage] at h
  | cons m rest ih =>
    intro l' h
    by_cases hm : m.id = some mid
    · have hidx : (m :: rest).findIdx (fun m' => decide (m'.id = some mid)) = 0 := by
        rw [List.findIdx_cons]
        simp [hm]
      simp only [updateSingleMessage, if_pos hm] at h
      by_cases hfm : f m = m
      · rw [if_pos hfm] at h; exact absurd h (by simp)
      · rw [if_neg hfm] at h
        have hl' : f m :: rest = l' := by injection h
        subst hl'
        rw [hidx]
        refine ⟨by simp, ?_, m, by simp, by simp⟩
        intro j hj
        match j with
        | 0 => exact absurd rfl hj
        | j' + 1 => simp
    · have hidx : (m :: rest).findIdx (fun m' => decide (m'.id = some mid)) =
          rest.findIdx (fun m' => decide (m'.id = some mid)) + 1 := by
        rw [List.findIdx_cons]
        simp [hm]
      simp only [updateSingleMessage, if_neg hm] at h
      cases hrest : updateSingleMessage mid f rest with
      | none => rw [hrest] at h; simp at h
      | some r' =>
        rw [hrest] at h
        simp only [Option.map_some'] at h
        have hl' : m :: r' = l' := by injection h
        subst hl'
        obtain ⟨hlen, hframe, m₀, hm₀1, hm₀2⟩ := ih r' hrest
        rw [hidx]
        refine ⟨by simpa using hlen, ?_, m₀, by simpa using hm₀1, by simpa using hm₀2⟩
        intro j hj
        match j with
        | 0 => simp
        | j' + 1 =>
          have : j' ≠ rest.findIdx (fun m' => decide (m'.id = some mid)) := by
            intro hc; exact hj (by rw [hc])
          simpa using hframe j' this

/-- Witness for C10: a concrete found-and-replaced call, with the
same-length conclusion of the frame theorem. -/
theorem updateOne_frame_witness :
    updateSingleMessage "a" (fun m => { m with content := some "hi" }) [mA5] =
        some [{ mA5 with content := some "hi" }] ∧
      ([{ mA5 with content := some "hi" }] : List Message).length = [mA5].length :=
  ⟨rfl, (updateOne_frame "a" (fun m => { m with content := some "hi" })
    [mA5] [{ mA5 with content := some "hi" }] rfl).1⟩

/-! ## Claim C6 -/

/-- C6: for a `messagesRead` event `{userId, messageIds, timestamp}` and a
stored message whose id is in `messageIds`: a message whose `readers`
already has an entry for `userId` is left unchanged; otherwise exactly one
entry `{userId, readAt}` is appended; consequently a readers list holding at
most one entry per user still holds at most one entry per user afterwards.
The store-level handler applies this per-message update pointwise. -/
theorem messagesRead_no_duplicate_readers (uid : String) (mids : List String)
    (ts : Option Nat) (now : Nat) (msg : Message) (i : String)
    (hid : msg.id = some i) (hin : i ∈ mids) :
    (hasReaderFor uid msg.readers = true →
        messagesReadMsg uid mids ts now msg = msg) ∧
      (hasReaderFor uid msg.readers = false →
        (messagesReadMsg uid mids ts now msg).readers = msg.readers ++
          [{ userId := some uid, rid := none, readAt := some (tsOrNow ts now) }]) ∧
      ((∀ u, countReadersFor u msg.readers ≤ 1) →
        ∀ u, countReadersFor u (messagesReadMsg uid mids ts now msg).readers ≤ 1) ∧
      ∀ st : ChatState, st.mounted = true →
        (onMessagesRead st uid mids ts now).messages =
          st.messages.map (messagesReadMsg uid mids ts now) := by
  have hincl : idIncluded mids msg.id = true := by
    rw [hid]
    simpa [idIncluded] using hin
  refine ⟨?_, ?_, ?_, ?_⟩
  · intro h
    rw [messagesReadMsg, hincl]
    simp [h]
  · intro h
    rw [messagesReadMsg, hincl]
    simp [h]
  · intro hbound u
    by_cases hread : hasReaderFor uid msg.readers = true
    · rw [messagesReadMsg, hincl]
      simp only [Bool.not_true, Bool.false_eq_true, if_false, hread, if_true]
      exact hbound u
    · rw [messagesReadMsg, hincl]
      rw [Bool.not_eq_true] at hread
      simp only [Bool.not_true, Bool.false_eq_true, if_false, hread, Bool.false_eq_true,
        if_false]
      rw [countReadersFor, List.countP_append]
      by_cases hu : u = uid
      · subst hu
        have hz : msg.readers.countP
            (fun r => decide (r.userId = some u) || decide (r.rid = some u)) = 0 := by
          rw [List.countP_eq_zero]
          intro r hr
          rw [hasReaderFor, List.any_eq_false] at hread
          exact hread r hr
        rw [hz]
        simp [List.countP_cons]
      · have huid : ¬ uid = u := fun hc => hu hc.symm
        have hone : List.countP
            (fun r => decide (r.userId = some u) || decide (r.rid = some u))
            [({ userId := some uid, rid := none,
                readAt := some (tsOrNow ts now) } : Reader)] = 0 := by
          simp [List.countP_cons, huid]
        rw [hone]
        simpa using hbound u
  · intro st hst
    rw [onMessagesRead, hst]
    rfl

/-- A reader entry for user `"u1"`. -/
def readerU1 : Reader := { userId := some "u1" }

/-- The message `mA5` already read by `"u1"`. -/
def mA5read : Message := { mA5 with readers := [readerU1] }

/-- Witness for C6: a concrete already-read message is unchanged and a
concrete unread message gets exactly one appended entry. -/
theorem messagesRead_no_duplicate_readers_witness :
    messagesReadMsg "u1" ["a"] (some 7) 9 mA5read = mA5read ∧
      (messagesReadMsg "u1" ["a"] (some 7) 9 mA5).readers =
        mA5.readers ++
          [{ userId := some "u1", rid := none, readAt := some (tsOrNow (some 7) 9) }] :=
  ⟨(messagesRead_no_duplicate_readers "u1" ["a"] (some 7) 9 mA5read "a" rfl
      (by decide)).1 (by decide),
    (messagesRead_no_duplicate_readers "u1" ["a"] (some 7) 9 mA5 "a" rfl
      (by decide)).2.1 (by decide)⟩

/-! ## Claim C7 -/

/-- A state in mid-session: non-empty store, a recorded seen id, a sticky
error string. -/
def c7State : ChatState :=
  { initialState with messages := [mA5], seen := ["a"], error := some "oops" }

/-- C7: evaluation of the claimed scenario on the code.
`cleanup("disconnect")` followed by `cleanup("manual")` is claimed to leave
the Message Store empty and no error state; on the code the second call
leaves the store `[mA5]` and the error `"oops"` untouched, because the
`cleanup` branches compare `reason` against the upper-case literals
`"MANUAL"` / `"DISCONNECT"` while the `CLEANUP_REASONS` constants (and the
spec's scenario) use the lower-case strings, so neither branch ever runs.
Only the seen-id set is cleared (that clearing is unconditional). -/
theorem cleanup_manual_after_disconnect_eval :
    (cleanup (cleanup c7State "disconnect") "manual").messages = [mA5] ∧
      (cleanup (cleanup c7State "disconnect") "manual").seen = [] ∧
      (cleanup (cleanup c7State "disconnect") "manual").error = some "oops" := by
  decide

/-! ## Claim C8 -/

/-- A state in mid-session with a recorded seen id. -/
def c8State : ChatState := { initialState with messages := [mA5], seen := ["a"] }

/-- C8 counterexample: `cleanup("disconnect")` does not preserve the Seen-ID
Set (it is cleared unconditionally), and it does not set the
connection-lost status either (the branch compares against upper-case
`"DISCONNECT"`). -/
theorem cleanup_disconnect_not_frame :
    ¬ ((cleanup c8State "disconnect").seen = c8State.seen ∧
        (cleanup c8State "disconnect").error = some connectionLostMsg) := by
  decide

/-- C8 (amended): `cleanup("disconnect")` preserves the Message Store (and
`userRooms`), but clears the Seen-ID Set, and leaves the error state exactly
as it was — no connection-lost status is set, since the reason comparison
expects the upper-case string. -/
theorem cleanup_disconnect_frame (st : ChatState)
    (h1 : st.mounted = true) (h2 : strFalsy st.roomId = false)
    (h3 : st.cleanupInProgress = false) :
    (cleanup st "disconnect").messages = st.messages ∧
      (cleanup st "disconnect").seen = [] ∧
      (cleanup st "disconnect").error = st.error ∧
      (cleanup st "disconnect").userRooms = st.userRooms := by
  simp [cleanup, h1, h2, h3]

/-- Witness for C8's amended theorem at a concrete state. -/
theorem cleanup_disconnect_frame_witness :
    (cleanup c8State "disconnect").messages = c8State.messages ∧
      (cleanup c8State "disconnect").seen = [] ∧
      (cleanup c8State "disconnect").error = c8State.error ∧
      (cleanup c8State "disconnect").userRooms = c8State.userRooms :=
  cleanup_disconnect_frame c8State (by decide) (by decide) (by decide)

/-! ## Claim C9 -/

/-- C9: a malformed history-batch payload — not an object, or with a
`messages` field that is not an array — makes ingestion raise an error that
the handler catches, converting it into the user-visible non-fatal status
message, setting `hasMoreMessages := false`, and leaving the Message Store
(and the seen-id set) exactly as they were. -/
theorem malformed_batch_is_safe (st : ChatState) (hm : Bool)
    (h1 : st.mounted = true) (h2 : st.messageProcessing = false) :
    handlePreviousMessages st .notObject =
        { st with loadingMessages := false, error := some processErrorMsg,
                  hasMoreMessages := false } ∧
      handlePreviousMessages st (.obj (some .notArr) hm) =
        { st with loadingMessages := false, error := some processErrorMsg,
                  hasMoreMessages := false } ∧
      (handlePreviousMessages st .notObject).messages = st.messages ∧
      (handlePreviousMessages st (.obj (some .notArr) hm)).messages = st.messages ∧
      (handlePreviousMessages st .notObject).seen = st.seen ∧
      (handlePreviousMessages st (.obj (some .notArr) hm)).seen = st.seen := by
  have hguard : (!st.mounted || st.messageProcessing) = false := by
    rw [h1, h2]; rfl
  have hno : handlePreviousMessages st .notObject =
      { st with loadingMessages := false, error := some processErrorMsg,
                hasMoreMessages := false } := by
    rw [handlePreviousMessages, hguard]
    rfl
  have hna : handlePreviousMessages st (.obj (some .notArr) hm) =
      { st with loadingMessages := false, error := some processErrorMsg,
                hasMoreMessages := false } := by
    rw [handlePreviousMessages, hguard]
    rfl
  exact ⟨hno, hna, by rw [hno], by rw [hna], by rw [hno], by rw [hna]⟩

/-- Witness for C9 at the room-entry state. -/
theorem malformed_batch_is_safe_witness :
    handlePreviousMessages initialState .notObject =
        { initialState with loadingMessages := false,
                            error := some processErrorMsg,
                            hasMoreMessages := false } ∧
      (handlePreviousMessages initialState (.obj (some .notArr) true)).messages =
        initialState.messages :=
  ⟨(malformed_batch_is_safe initialState true rfl rfl).1,
    (malformed_batch_is_safe initialState true rfl rfl).2.2.2.1⟩

end BootcampChat
